import Mathlib

/-!
Verification of `scripts/visualize_path.py` from the Toposhield-Genus5
repository.  The script's floating-point arithmetic is modelled exactly over
the rationals: every matrix entry in the script is a small integer and every
complex value reached by the claims is a small rational, so the rational model
and the float computation agree (well within the 1e-9 tolerances the spec
quotes).  Non-finite float values are modelled by `none` in `Option Cq`, and a
Python `IndexError` during path evaluation is modelled by `none` at the outer
`Option` layer of `evaluate`.
-/

namespace VisualizePath

/-- A 2×2 matrix with (exact) rational entries, modelling the
`np.array([[a, b], [c, d]], dtype=float)` matrices of the script. -/
structure Mat2 where
  a : ℚ
  b : ℚ
  c : ℚ
  d : ℚ
  deriving DecidableEq, Repr

namespace Mat2

/-- Matrix product. -/
def mul (M N : Mat2) : Mat2 :=
  ⟨M.a * N.a + M.b * N.c, M.a * N.b + M.b * N.d,
   M.c * N.a + M.d * N.c, M.c * N.b + M.d * N.d⟩

/-- Determinant. -/
def det (M : Mat2) : ℚ := M.a * M.d - M.b * M.c

/-- The 2×2 identity matrix. -/
def idm : Mat2 := ⟨1, 0, 0, 1⟩

/-- Scalar multiple of a matrix. -/
def smul (q : ℚ) (M : Mat2) : Mat2 := ⟨q * M.a, q * M.b, q * M.c, q * M.d⟩

end Mat2

/-- The ten hard-coded base matrices `GENERATORS_UPPER` of the script. -/
def GENERATORS_UPPER : List Mat2 :=
  [⟨2, 1, 1, 1⟩,
   ⟨3, 2, 1, 1⟩,
   ⟨5, 3, 2, 1⟩,
   ⟨7, 4, 3, 2⟩,
   ⟨11, 7, 4, 3⟩,
   ⟨13, 8, 5, 3⟩,
   ⟨17, 11, 7, 4⟩,
   ⟨19, 12, 8, 5⟩,
   ⟨23, 14, 9, 6⟩,
   ⟨21, 13, 8, 5⟩]

/-- `invert_matrix` from the script: returns `[[d, -b], [-c, a]]`
(the adjugate of `[[a, b], [c, d]]`). -/
def invert_matrix (M : Mat2) : Mat2 := ⟨M.d, -M.b, -M.c, M.a⟩

/-- The full 20-element generator table: the ten base matrices followed by
their images under `invert_matrix`. -/
def GENERATORS : List Mat2 :=
  GENERATORS_UPPER ++ GENERATORS_UPPER.map invert_matrix

/-- Complex numbers with rational components, modelling the Python `complex`
values flowing through the script (exact where the script uses floats). -/
structure Cq where
  re : ℚ
  im : ℚ
  deriving DecidableEq, Repr

namespace Cq

/-- The complex number 0. -/
def zero : Cq := ⟨0, 0⟩

/-- The imaginary unit `1j`. -/
def iu : Cq := ⟨0, 1⟩

/-- Embedding of a rational as a complex number. -/
def ofQ (q : ℚ) : Cq := ⟨q, 0⟩

/-- Complex addition. -/
def add (z w : Cq) : Cq := ⟨z.re + w.re, z.im + w.im⟩

/-- Complex subtraction. -/
def sub (z w : Cq) : Cq := ⟨z.re - w.re, z.im - w.im⟩

/-- Complex multiplication. -/
def mul (z w : Cq) : Cq :=
  ⟨z.re * w.re - z.im * w.im, z.re * w.im + z.im * w.re⟩

/-- Squared modulus. -/
def normSq (z : Cq) : ℚ := z.re * z.re + z.im * z.im

/-- Complex division (via the conjugate; sends a zero denominator to 0, a
case the script's claims never reach with a finite result). -/
def div (z w : Cq) : Cq :=
  ⟨(z.re * w.re + z.im * w.im) / normSq w,
   (z.im * w.re - z.re * w.im) / normSq w⟩

end Cq

/-- `upper_halfplane_to_disk` from the script: `(z - 1j) / (z + 1j)`. -/
def upper_halfplane_to_disk (z : Cq) : Cq :=
  Cq.div (Cq.sub z Cq.iu) (Cq.add z Cq.iu)

/-- `apply_mobius` from the script: `(a*z + b) / (c*z + d)`. -/
def apply_mobius (M : Mat2) (z : Cq) : Cq :=
  Cq.div (Cq.add (Cq.mul (Cq.ofQ M.a) z) (Cq.ofQ M.b))
         (Cq.add (Cq.mul (Cq.ofQ M.c) z) (Cq.ofQ M.d))

/-- `apply_mobius` on the finiteness-tracking value domain: a non-finite
operand stays non-finite (float arithmetic with the table's matrices, all of
which have a nonzero entry in each row, never turns a non-finite complex into
a finite one), and a zero denominator produces the non-finite marker instead
of raising. -/
def apply_mobiusF (M : Mat2) (z : Option Cq) : Option Cq :=
  match z with
  | none => none
  | some z =>
      if Cq.add (Cq.mul (Cq.ofQ M.c) z) (Cq.ofQ M.d) = Cq.zero then none
      else some (apply_mobius M z)

/-- Python list indexing into `GENERATORS` as used by `GENERATORS[idx]`:
indices `0..19` select directly, `-20..-1` select from the end, and anything
else raises `IndexError` (modelled by `none`). -/
def generator (idx : ℤ) : Option Mat2 :=
  if 0 ≤ idx then GENERATORS.get? idx.toNat
  else if 0 ≤ (20 : ℤ) + idx then GENERATORS.get? ((20 : ℤ) + idx).toNat
  else none

/-- The evaluation loop of `animate_gamma_path` (lines 50–53): starting from
`current`, apply the generator selected by each path element in turn,
collecting the successive values.  Outer `none` models an `IndexError`. -/
def evalLoop (current : Option Cq) : List ℤ → Option (List (Option Cq))
  | [] => some []
  | idx :: rest =>
      match generator idx with
      | none => none
      | some M =>
          let nxt := apply_mobiusF M current
          match evalLoop nxt rest with
          | none => none
          | some pts => some (nxt :: pts)

/-- Orbit evaluation in `animate_gamma_path`: `points_upper` starts at the
basepoint `1j` and appends the value after each step. -/
def evaluate (gamma : List ℤ) : Option (List (Option Cq)) :=
  (evalLoop (some Cq.iu) gamma).map (fun pts => some Cq.iu :: pts)

/-- The disk-projection step of `animate_gamma_path` (lines 56–61): a finite
value goes through `upper_halfplane_to_disk`, a non-finite one becomes
`complex(0, 0)`. -/
def projectPoint (z : Option Cq) : Cq :=
  match z with
  | some z => upper_halfplane_to_disk z
  | none => Cq.zero

/-- `points_disk` of `animate_gamma_path`: elementwise disk projection. -/
def points_disk (orbit : List (Option Cq)) : List Cq :=
  orbit.map projectPoint

/-- A JSON input document as far as `__main__` inspects it: it may carry a
`gamma` field and/or a `private_key` field, each a list of integers. -/
structure InputDoc where
  gammaField : Option (List ℤ)
  privateKeyField : Option (List ℤ)
  deriving DecidableEq, Repr

/-- The field extraction of `__main__`:
`data.get("gamma", data.get("private_key", []))`. -/
def extract_gamma (doc : InputDoc) : List ℤ :=
  match doc.gammaField with
  | some g => g
  | none =>
      match doc.privateKeyField with
      | some g => g
      | none => []

/-- Outcome of the `__main__` block on a file argument. -/
inductive MainOutcome where
  | fatal
  | proceeds (gamma : List ℤ)
  deriving DecidableEq, Repr

/-- The `__main__` block on a file argument: a document that fails to parse
(`none`) makes `json.load` raise, which is fatal; a parsed document always
proceeds to `animate_gamma_path` with the extracted path. -/
def main_outcome (parsed : Option InputDoc) : MainOutcome :=
  match parsed with
  | none => MainOutcome.fatal
  | some doc => MainOutcome.proceeds (extract_gamma doc)

/-! ### Helper lemmas -/

lemma GENERATORS_length : GENERATORS.length = 20 := rfl

lemma generator_valid (i : ℤ) (h0 : 0 ≤ i) (h1 : i < 20) : ∃ M, generator i = some M := by
  have hlt : i.toNat < GENERATORS.length := by
    rw [GENERATORS_length]; omega
  exact ⟨GENERATORS.get ⟨i.toNat, hlt⟩, by simp [generator, h0, List.get?_eq_get hlt]⟩

lemma generator_invalid (i : ℤ) (h : i < -20 ∨ 20 ≤ i) : generator i = none := by
  rcases h with h | h
  · simp only [generator]
    rw [if_neg (by omega), if_neg (by omega)]
  · simp only [generator]
    rw [if_pos (by omega)]
    refine List.get?_eq_none.mpr ?_
    rw [GENERATORS_length]; omega

lemma evalLoop_isSome (gamma : List ℤ) :
    ∀ cur : Option Cq, (∀ i ∈ gamma, 0 ≤ i ∧ i < 20) →
      ∃ pts, evalLoop cur gamma = some pts ∧ pts.length = gamma.length := by
  induction gamma with
  | nil => exact fun cur _ => ⟨[], rfl, rfl⟩
  | cons j rest ih =>
    intro cur h
    obtain ⟨h0, h1⟩ := h j (List.mem_cons_self _ _)
    obtain ⟨M, hM⟩ := generator_valid j h0 h1
    obtain ⟨pts, hpts, hlen⟩ :=
      ih (apply_mobiusF M cur) (fun i hi => h i (List.mem_cons_of_mem _ hi))
    exact ⟨apply_mobiusF M cur :: pts, by simp [evalLoop, hM, hpts], by simp [hlen]⟩

lemma evalLoop_none_of_mem :
    ∀ (gamma : List ℤ) (cur : Option Cq) (i : ℤ),
      i ∈ gamma → generator i = none → evalLoop cur gamma = none := by
  intro gamma
  induction gamma with
  | nil => intro cur i hi; cases hi
  | cons j rest ih =>
    intro cur i hi hgen
    rcases List.mem_cons.mp hi with rfl | hmem
    · simp [evalLoop, hgen]
    · cases hj : generator j with
      | none => simp [evalLoop, hj]
      | some M => simp [evalLoop, hj, ih _ i hmem hgen]

/-! ### Claim theorems -/

/-- C1: the spec claims that for every i in [0,9] the table entry at i+10 is
the multiplicative inverse of the entry at i.  The code violates this: at
i = 2 the base matrix is [[5,3],[2,1]] with determinant −1, and the adjugate
built by `invert_matrix` multiplies with it to −identity, not the identity
(entrywise distance 2 from the identity, far beyond the 1e-9 tolerance).
The code's own comment asserts the matrices lie in SL(2,ℝ), so the matrix
entries, not the spec, are the slip. -/
theorem spec_c1_inverse_bug :
    GENERATORS.get? 2 = some ⟨5, 3, 2, 1⟩ ∧
    GENERATORS.get? 12 = some (invert_matrix ⟨5, 3, 2, 1⟩) ∧
    Mat2.mul (invert_matrix ⟨5, 3, 2, 1⟩) ⟨5, 3, 2, 1⟩ = Mat2.smul (-1) Mat2.idm ∧
    Mat2.mul (invert_matrix ⟨5, 3, 2, 1⟩) ⟨5, 3, 2, 1⟩ ≠ Mat2.idm := by
  refine ⟨rfl, rfl, ?_, ?_⟩
  · norm_num [Mat2.mul, invert_matrix, Mat2.smul, Mat2.idm, Mat2.mk.injEq]
  · intro h
    have ha := congrArg Mat2.a h
    norm_num [Mat2.mul, invert_matrix, Mat2.idm] at ha

/-- C2: the spec claims every hard-coded base matrix has determinant exactly 1.
The code violates this: the actual determinants of `GENERATORS_UPPER` are
[1, 1, −1, 2, 5, −1, −9, −1, 12, 1]; in particular entry 2, [[5,3],[2,1]],
has determinant −1.  The code's comment says the matrices generate a subgroup
of SL(2,ℝ) (determinant 1), contradicting its own entries. -/
theorem spec_c2_det_bug :
    GENERATORS_UPPER.map Mat2.det = [1, 1, -1, 2, 5, -1, -9, -1, 12, 1] ∧
    Mat2.det ⟨5, 3, 2, 1⟩ = -1 ∧ ((-1 : ℚ) ≠ 1) := by
  refine ⟨?_, ?_, by norm_num⟩
  · norm_num [GENERATORS_UPPER, Mat2.det]
  · norm_num [Mat2.det]

/-- C3: for every path whose elements are valid generator indices (in [0,19]),
evaluation yields an orbit of length L+1 beginning at the basepoint i, and the
elementwise disk projection has the same length; the empty path gives the
basepoint alone. -/
theorem spec_c3_orbit_length :
    (∀ gamma : List ℤ, (∀ i ∈ gamma, 0 ≤ i ∧ i < 20) →
      ∃ orbit, evaluate gamma = some orbit ∧ orbit.length = gamma.length + 1 ∧
        orbit.head? = some (some Cq.iu) ∧
        (points_disk orbit).length = gamma.length + 1) ∧
    evaluate [] = some [some Cq.iu] := by
  refine ⟨?_, rfl⟩
  intro gamma h
  obtain ⟨pts, hpts, hlen⟩ := evalLoop_isSome gamma (some Cq.iu) h
  exact ⟨some Cq.iu :: pts, by simp [evaluate, hpts], by simp [hlen], rfl,
    by simp [points_disk, hlen]⟩

/-- C3 witness at the concrete path [0, 5]. -/
theorem spec_c3_orbit_length_witness :
    ∃ orbit, evaluate [0, 5] = some orbit ∧ orbit.length = 3 ∧
      orbit.head? = some (some Cq.iu) ∧ (points_disk orbit).length = 3 :=
  spec_c3_orbit_length.1 [0, 5] (by decide)

/-- C4 counterexample: the claim says any path element outside [0,19] makes
evaluation fail with an IndexError, but the path [−1] evaluates successfully
(Python negative indexing selects `GENERATORS[19]`). -/
theorem spec_c4_counterexample : evaluate [-1] ≠ none := by
  have h : evaluate [-1] = some [some Cq.iu, some ⟨-(313/505), 1/505⟩] := by
    norm_num [evaluate, evalLoop, generator, GENERATORS, GENERATORS_UPPER, apply_mobiusF,
      apply_mobius, Cq.div, Cq.add, Cq.mul, Cq.ofQ, Cq.iu, Cq.zero, Cq.normSq, invert_matrix,
      List.get?, Int.toNat_ofNat, Cq.mk.injEq]
  simp [h]

/-- C4 (amended): for every path containing an element outside [−20,19],
evaluation fails with an IndexError (the whole evaluation aborts, producing no
orbit); in particular the path [20] fails. -/
theorem spec_c4_index_error :
    (∀ gamma : List ℤ, ∀ i ∈ gamma, (i < -20 ∨ 20 ≤ i) → evaluate gamma = none) ∧
    evaluate [20] = none := by
  constructor
  · intro gamma i hi hrange
    have h := evalLoop_none_of_mem gamma (some Cq.iu) i hi (generator_invalid i hrange)
    simp [evaluate, h]
  · have h20 : generator 20 = none := generator_invalid 20 (Or.inr (by norm_num))
    simp [evaluate, evalLoop, h20]

/-- C4 witness at the concrete path [0, 25]. -/
theorem spec_c4_index_error_witness : evaluate [0, 25] = none :=
  spec_c4_index_error.1 [0, 25] 25 (by decide) (by decide)

/-- C5: on valid indices evaluation is total (never an IndexError; a
degenerate Möbius step stores the non-finite marker and the loop continues,
as `apply_mobiusF` propagates the marker), and projection sends the
non-finite marker to the origin and every finite value through
`upper_halfplane_to_disk`. -/
theorem spec_c5_totality_and_fallback :
    (∀ gamma : List ℤ, (∀ i ∈ gamma, 0 ≤ i ∧ i < 20) → evaluate gamma ≠ none) ∧
    (∀ M : Mat2, apply_mobiusF M none = none) ∧
    (∀ z : Cq, projectPoint (some z) = upper_halfplane_to_disk z) ∧
    projectPoint none = Cq.zero := by
  refine ⟨?_, fun M => rfl, fun z => rfl, rfl⟩
  intro gamma h
  obtain ⟨pts, hpts, -⟩ := evalLoop_isSome gamma (some Cq.iu) h
  simp [evaluate, hpts]

/-- C5 witness at the concrete path [3] and concrete projection inputs. -/
theorem spec_c5_totality_and_fallback_witness :
    evaluate [3] ≠ none ∧ apply_mobiusF Mat2.idm none = none ∧
    projectPoint (some Cq.iu) = upper_halfplane_to_disk Cq.iu ∧
    projectPoint none = Cq.zero :=
  ⟨spec_c5_totality_and_fallback.1 [3] (by decide),
   spec_c5_totality_and_fallback.2.1 Mat2.idm,
   spec_c5_totality_and_fallback.2.2.1 Cq.iu,
   spec_c5_totality_and_fallback.2.2.2⟩

/-- C6 counterexample: the claim says a parsed document lacking both `gamma`
and `private_key` is fatal, but `__main__` proceeds with the empty path
(`data.get("gamma", data.get("private_key", []))` falls back to `[]`). -/
theorem spec_c6_counterexample :
    main_outcome (some ⟨none, none⟩) = MainOutcome.proceeds [] ∧
    main_outcome (some ⟨none, none⟩) ≠ MainOutcome.fatal := by
  exact ⟨rfl, fun h => MainOutcome.noConfusion h⟩

/-- C6 (amended): when the JSON parses but contains neither a `gamma` nor a
`private_key` field, the process does not terminate with an error: the path
defaults to the empty list and the program proceeds, producing the
basepoint-only orbit. -/
theorem spec_c6_missing_fields :
    ∀ doc : InputDoc, doc.gammaField = none → doc.privateKeyField = none →
      main_outcome (some doc) = MainOutcome.proceeds [] ∧
      evaluate (extract_gamma doc) = some [some Cq.iu] := by
  intro doc h1 h2
  have hg : extract_gamma doc = [] := by simp [extract_gamma, h1, h2]
  exact ⟨by simp [main_outcome, hg], by rw [hg]; rfl⟩

/-- C6 witness at the concrete document with both fields absent. -/
theorem spec_c6_missing_fields_witness :
    main_outcome (some ⟨none, none⟩) = MainOutcome.proceeds [] ∧
    evaluate (extract_gamma ⟨none, none⟩) = some [some Cq.iu] :=
  spec_c6_missing_fields ⟨none, none⟩ rfl rfl

/-- C7: the disk projection is (z − i)/(z + i); every point with strictly
positive imaginary part lands strictly inside the unit disk (stated via the
squared modulus, equivalent to modulus < 1), and the basepoint i lands
exactly at the origin. -/
theorem spec_c7_disk_projection :
    (∀ z : Cq, 0 < z.im → Cq.normSq (upper_halfplane_to_disk z) < 1) ∧
    upper_halfplane_to_disk Cq.iu = Cq.zero := by
  constructor
  · intro z hz
    simp only [upper_halfplane_to_disk, Cq.div, Cq.sub, Cq.add, Cq.iu, Cq.normSq,
      sub_zero, add_zero]
    have hN : 0 < z.re * z.re + (z.im + 1) * (z.im + 1) := by
      nlinarith [mul_self_nonneg z.re, hz]
    rw [div_mul_div_comm, div_mul_div_comm, div_add_div_same,
      div_lt_one (by positivity)]
    nlinarith [mul_pos hz hN, hN, mul_self_nonneg z.re]
  · norm_num [upper_halfplane_to_disk, Cq.div, Cq.sub, Cq.add, Cq.iu, Cq.zero,
      Cq.normSq, Cq.mk.injEq]

/-- C7 witness at the concrete point 1 + 2i. -/
theorem spec_c7_disk_projection_witness :
    Cq.normSq (upper_halfplane_to_disk ⟨1, 2⟩) < 1 :=
  spec_c7_disk_projection.1 ⟨1, 2⟩ (by norm_num)

/-- C8: the end-to-end example for the path [0]: generator 0 = [[2,1],[1,1]]
sends the basepoint i to 1.5 + 0.5i, the orbit is [i, 1.5 + 0.5i], and
projecting the new point gives (1.5 − 0.5i)/(1.5 + 1.5i) (the model computes
these rationals exactly, so they match the float output within 1e-9). -/
theorem spec_c8_end_to_end :
    apply_mobius ⟨2, 1, 1, 1⟩ Cq.iu = ⟨3/2, 1/2⟩ ∧
    evaluate [0] = some [some Cq.iu, some ⟨3/2, 1/2⟩] ∧
    upper_halfplane_to_disk ⟨3/2, 1/2⟩ = Cq.div ⟨3/2, -(1/2)⟩ ⟨3/2, 3/2⟩ := by
  refine ⟨?_, ?_, ?_⟩
  · norm_num [apply_mobius, Cq.div, Cq.add, Cq.mul, Cq.ofQ, Cq.iu, Cq.normSq, Cq.mk.injEq]
  · norm_num [evaluate, evalLoop, generator, GENERATORS, GENERATORS_UPPER, apply_mobiusF,
      apply_mobius, Cq.div, Cq.add, Cq.mul, Cq.ofQ, Cq.iu, Cq.zero, Cq.normSq, Cq.mk.injEq,
      List.get?, Int.toNat_ofNat]
  · norm_num [upper_halfplane_to_disk, Cq.div, Cq.sub, Cq.add, Cq.iu, Cq.normSq, Cq.mk.injEq]

/-- C9: `invert_matrix` returns the adjugate, so its product with the input is
det·identity on either side, and it is a genuine two-sided inverse exactly
when the determinant is 1. -/
theorem spec_c9_adjugate :
    ∀ M : Mat2,
      Mat2.mul (invert_matrix M) M = Mat2.smul (Mat2.det M) Mat2.idm ∧
      ((Mat2.mul (invert_matrix M) M = Mat2.idm ∧
        Mat2.mul M (invert_matrix M) = Mat2.idm) ↔ Mat2.det M = 1) := by
  intro M
  constructor
  · simp only [Mat2.mul, invert_matrix, Mat2.smul, Mat2.idm, Mat2.det, Mat2.mk.injEq]
    refine ⟨by ring, by ring, by ring, by ring⟩
  · constructor
    · rintro ⟨h1, -⟩
      have ha := congrArg Mat2.a h1
      simp only [Mat2.mul, invert_matrix, Mat2.idm, Mat2.det] at ha ⊢
      linear_combination ha
    · intro hdet
      simp only [Mat2.det] at hdet
      constructor
      · simp only [Mat2.mul, invert_matrix, Mat2.idm, Mat2.mk.injEq]
        refine ⟨by linear_combination hdet, by ring, by ring, by linear_combination hdet⟩
      · simp only [Mat2.mul, invert_matrix, Mat2.idm, Mat2.mk.injEq]
        refine ⟨by linear_combination hdet, by ring, by ring, by linear_combination hdet⟩

/-- C10: a negative path element idx in [−20,−1] does not raise: it selects
the table entry at position 20 + idx, and evaluation of the one-step path
proceeds with that matrix. -/
theorem spec_c10_negative_index :
    ∀ idx : ℤ, -20 ≤ idx → idx ≤ -1 →
      ∃ M, generator idx = some M ∧
        GENERATORS.get? ((20 : ℤ) + idx).toNat = some M ∧
        evaluate [idx] = some [some Cq.iu, apply_mobiusF M (some Cq.iu)] := by
  intro idx h1 h2
  have hlt : ((20 : ℤ) + idx).toNat < GENERATORS.length := by
    rw [GENERATORS_length]; omega
  have hgen : generator idx = some (GENERATORS.get ⟨((20 : ℤ) + idx).toNat, hlt⟩) := by
    simp only [generator]
    rw [if_neg (by omega), if_pos (by omega)]
    exact List.get?_eq_get hlt
  exact ⟨GENERATORS.get ⟨((20 : ℤ) + idx).toNat, hlt⟩, hgen, List.get?_eq_get hlt,
    by simp [evaluate, evalLoop, hgen]⟩

/-- C10 witness at the concrete index −1. -/
theorem spec_c10_negative_index_witness :
    ∃ M, generator (-1) = some M ∧
      GENERATORS.get? ((20 : ℤ) + -1).toNat = some M ∧
      evaluate [-1] = some [some Cq.iu, apply_mobiusF M (some Cq.iu)] :=
  spec_c10_negative_index (-1) (by norm_num) (by norm_num)

end VisualizePath
